import Mathlib

/-!
Verification of the hdltypes library: a shallow embedding of the
Range / logic value / array / integer layers of the library, with theorems
checking the natural-language specification against the code.

Embedding conventions:
* Python `int` is `Int` (or `Nat` where the code guarantees nonnegativity).
* A Python method that may return `NotImplemented` or raise is embedded as a
  function into `PyResult`; a constructor that may raise returns `Except String`
  or `Option`.
* The logic value interning cache is pure memoization and is not modelled;
  a logic value is its pair of concrete subtype and internal code.
-/

namespace Hdl

/-- Result of a Python binary operator method: a value, the `NotImplemented`
sentinel, or a raised exception. -/
inductive PyResult (α : Type) where
  | ok (val : α)
  | notImplemented
  | error (msg : String)
  deriving DecidableEq

/-! ## Logic values (logic.py)

The internal codes, from logic.py: `_U = 0`, `_X = 1`, `_0 = 2`, `_1 = 3`,
`_Z = 4`, `_W = 5`, `_L = 6`, `_H = 7`, `__ = 8`. -/

/-- The three concrete subtypes of the logic hierarchy:
`Bit` inherits from `X01Z` inherits from `StdLogic`. -/
inductive LogicSub where
  | std
  | x01z
  | bit
  deriving DecidableEq

/-- The `__values__` class attribute of each subtype: the permitted internal
codes, first element is the default.  From logic.py:
`StdLogic.__values__ = [_U, _X, _0, _1, _Z, _L, _H, _W, __]`,
`X01Z.__values__ = [_X, _0, _1, _Z]`, `Bit.__values__ = [_0, _1]`. -/
def LogicSub.values : LogicSub → List Nat
  | .std => [0, 1, 2, 3, 4, 6, 7, 5, 8]
  | .x01z => [1, 2, 3, 4]
  | .bit => [2, 3]

/-- Python `isinstance(v, cls)` for a logic value `v` of concrete subtype
`sub` against a concrete class `cls`: true iff `sub` is `cls` or a subclass
of `cls` in the chain `Bit <: X01Z <: StdLogic`. -/
def LogicSub.isinstanceOf : LogicSub → LogicSub → Bool
  | _, .std => true
  | .x01z, .x01z => true
  | .bit, .x01z => true
  | .bit, .bit => true
  | _, _ => false

/-- A logic value: its concrete subtype and its interned internal code
(the `_repr` slot). -/
structure LogicVal where
  sub : LogicSub
  code : Nat
  deriving DecidableEq

/-- A logic value is valid when its code is in its subtype's permitted set. -/
def LogicVal.valid (v : LogicVal) : Prop := v.code ∈ v.sub.values

instance (v : LogicVal) : Decidable v.valid := by
  unfold LogicVal.valid
  infer_instance

/-- The `_literal_repr` mapping restricted to single-character string
literals (the table entries and literal strings of the source). -/
def literalRepr (c : Char) : Option Nat :=
  if c = 'U' ∨ c = 'u' then some 0
  else if c = 'X' ∨ c = 'x' then some 1
  else if c = '0' then some 2
  else if c = '1' then some 3
  else if c = 'Z' ∨ c = 'z' then some 4
  else if c = 'L' ∨ c = 'l' then some 6
  else if c = 'H' ∨ c = 'h' then some 7
  else if c = 'W' ∨ c = 'w' then some 5
  else if c = '-' then some 8
  else none

/-- The `_literal_repr` mapping restricted to the int keys `0` and `1`. -/
def literalReprNat (n : Nat) : Option Nat :=
  if n = 0 then some 2
  else if n = 1 then some 3
  else none

/-- Constructor `cls(value)` from a single-character literal: convert the
literal through `_literal_repr`, then check membership in
`cls.__values__` (raising `ValueError` otherwise), per
`StdLogic.__new__`. -/
def construct (sub : LogicSub) (c : Char) : Option LogicVal :=
  match literalRepr c with
  | none => none
  | some code => if code ∈ sub.values then some ⟨sub, code⟩ else none

/-- Constructor `cls(value)` from an int literal 0 or 1. -/
def constructNat (sub : LogicSub) (n : Nat) : Option LogicVal :=
  match literalReprNat n with
  | none => none
  | some code => if code ∈ sub.values then some ⟨sub, code⟩ else none

/-- Constructor `cls(value)` from an existing logic value (subtype
conversion): take the operand's code and check membership. -/
def constructVal (sub : LogicSub) (v : LogicVal) : Option LogicVal :=
  if v.code ∈ sub.values then some ⟨sub, v.code⟩ else none

/-- The `_and_table` from logic.py, verbatim; rows and columns are indexed
by internal code in the order U X 0 1 Z W L H -. -/
def and_table : List (List Char) :=
  [ ['U', 'U', '0', 'U', 'U', 'U', '0', 'U', 'U'],
    ['U', 'X', '0', 'X', 'X', 'X', '0', 'X', 'X'],
    ['0', '0', '0', '0', '0', '0', '0', '0', '0'],
    ['U', 'X', '0', '1', 'X', 'X', '0', '1', 'X'],
    ['U', 'X', '0', 'X', 'X', 'X', '0', 'X', 'X'],
    ['U', 'X', '0', 'X', 'X', 'X', '0', 'X', 'X'],
    ['0', '0', '0', '0', '0', '0', '0', '0', '0'],
    ['U', 'X', '0', '1', 'X', 'X', '0', '1', 'X'],
    ['U', 'X', '0', 'X', 'X', 'X', '0', 'X', 'X'] ]

/-- The `_or_table` from logic.py, verbatim. -/
def or_table : List (List Char) :=
  [ ['U', 'U', 'U', '1', 'U', 'U', 'U', '1', 'U'],
    ['U', 'X', 'X', '1', 'X', 'X', 'X', '1', 'X'],
    ['U', 'X', '0', '1', 'X', 'X', '0', '1', 'X'],
    ['1', '1', '1', '1', '1', '1', '1', '1', '1'],
    ['U', 'X', 'X', '1', 'X', 'X', 'X', '1', 'X'],
    ['U', 'X', 'X', '1', 'X', 'X', 'X', '1', 'X'],
    ['U', 'X', '0', '1', 'X', 'X', '0', '1', 'X'],
    ['1', '1', '1', '1', '1', '1', '1', '1', '1'],
    ['U', 'X', 'X', '1', 'X', 'X', 'X', '1', 'X'] ]

/-- The `_xor_table` from logic.py, verbatim. -/
def xor_table : List (List Char) :=
  [ ['U', 'U', 'U', 'U', 'U', 'U', 'U', 'U', 'U'],
    ['U', 'X', 'X', 'X', 'X', 'X', 'X', 'X', 'X'],
    ['U', 'X', '0', '1', 'X', 'X', '0', '1', 'X'],
    ['U', 'X', '1', '0', 'X', 'X', '1', '0', 'X'],
    ['U', 'X', 'X', 'X', 'X', 'X', 'X', 'X', 'X'],
    ['U', 'X', 'X', 'X', 'X', 'X', 'X', 'X', 'X'],
    ['U', 'X', '0', '1', 'X', 'X', '0', '1', 'X'],
    ['U', 'X', '1', '0', 'X', 'X', '1', '0', 'X'],
    ['U', 'X', 'X', 'X', 'X', 'X', 'X', 'X', 'X'] ]

/-- The `_not_table` from logic.py, verbatim. -/
def not_table : List Char :=
  ['U', 'X', '1', '0', 'X', 'X', '1', '0', 'X']

/-- The `_str_table` from logic.py, verbatim. -/
def str_table : List Char :=
  ['U', 'X', '0', '1', 'Z', 'W', 'L', 'H', '-']

/-- Shared body of the three binary operator methods: given a table,
`StdLogic.__and__(self, other)` is
`type(self)(table[self._repr][other._repr]) if isinstance(other, type(self))
else NotImplemented`. -/
def binopMethod (table : List (List Char)) (self other : LogicVal) :
    PyResult LogicVal :=
  if other.sub.isinstanceOf self.sub then
    match table[self.code]? >>= fun row => row[other.code]? with
    | none => .error "internal: code out of table"
    | some c =>
      match construct self.sub c with
      | some v => .ok v
      | none => .error "ValueError"
  else
    .notImplemented

/-- Method `StdLogic.__and__`. -/
def LogicVal.and_ (self other : LogicVal) : PyResult LogicVal :=
  binopMethod and_table self other

/-- Method `StdLogic.__or__`. -/
def LogicVal.or_ (self other : LogicVal) : PyResult LogicVal :=
  binopMethod or_table self other

/-- Method `StdLogic.__xor__`. -/
def LogicVal.xor_ (self other : LogicVal) : PyResult LogicVal :=
  binopMethod xor_table self other

/-- Method `StdLogic.__invert__`: `type(self)(_not_table[self._repr])`. -/
def LogicVal.invert (self : LogicVal) : PyResult LogicVal :=
  match not_table[self.code]? with
  | none => .error "internal: code out of table"
  | some c =>
    match construct self.sub c with
    | some v => .ok v
    | none => .error "ValueError"

/-- Python's binary-operator dispatch for `a OP b` between two logic values:
try `a.__and__(b)`; on `NotImplemented` try the reflected
`b.__rand__(a)`, which logic.py defines as `self & other`, i.e. the
forward method on swapped operands (`b.__and__(a)`, the reflected retry
cannot recurse further because the subtype chain is total); if both return
`NotImplemented`, Python raises `TypeError`.  The subclass-priority rule
does not apply because no subclass overrides the reflected methods. -/
def pyBinop (method : LogicVal → LogicVal → PyResult LogicVal)
    (a b : LogicVal) : PyResult LogicVal :=
  match method a b with
  | .notImplemented =>
    match method b a with
    | .notImplemented => .error "TypeError"
    | r => r
  | r => r

/-- Expression `a & b` on logic values. -/
def pyAnd (a b : LogicVal) : PyResult LogicVal := pyBinop LogicVal.and_ a b

/-- Expression `a | b` on logic values. -/
def pyOr (a b : LogicVal) : PyResult LogicVal := pyBinop LogicVal.or_ a b

/-- Expression `a ^ b` on logic values. -/
def pyXor (a b : LogicVal) : PyResult LogicVal := pyBinop LogicVal.xor_ a b

/-- Method `StdLogic.__eq__(self, other)`: `self._repr == other._repr` when
`isinstance(other, type(self))`, else `NotImplemented` (`none` here). -/
def LogicVal.eq_ (self other : LogicVal) : Option Bool :=
  if other.sub.isinstanceOf self.sub then some (self.code == other.code)
  else none

/-- Python's `a == b` dispatch between two logic values: `a.__eq__(b)`,
then the reflected `b.__eq__(a)`, finally identity (interning makes
identity coincide with structural equality of subtype and code). -/
def pyEq (a b : LogicVal) : Bool :=
  match a.eq_ b with
  | some r => r
  | none =>
    match b.eq_ a with
    | some r => r
    | none => a == b

/-- Method `StdLogic.__hash__`: `hash(self._repr)`; Python's hash of a small
nonnegative int is the int itself. -/
def LogicVal.hash_ (self : LogicVal) : Nat := self.code

/-- Membership of a value in a Python hashed collection (set/dict bucket
lookup): some element has the same hash and compares equal. -/
def hashedContains (elems : List LogicVal) (v : LogicVal) : Bool :=
  elems.any fun w => w.hash_ == v.hash_ && pyEq w v

/-- Method `StdLogic.__int__`: 0 for code `_0`, 1 for code `_1`, else
`ValueError`. -/
def LogicVal.toInt (self : LogicVal) : Option Nat :=
  if self.code = 2 then some 0
  else if self.code = 3 then some 1
  else none

/-- Method `StdLogic.__str__`: `_str_table[self._repr]`. -/
def LogicVal.str_ (self : LogicVal) : Option Char := str_table[self.code]?

/-! ## Range (range.py)

A `Range` stores a Python `range` object `self._range = range(start, stop,
step)`.  Every range the library constructs has `step` equal to `1` or `-1`
(`_direction_to_step` / `_guess_step` produce nothing else), so the embedding
of `len`, containment and index below is stated for those two steps. -/

/-- The two direction strings accepted by `Range`. -/
inductive Direction where
  | to
  | downto
  deriving DecidableEq

/-- The `_direction_to_step` conversion. -/
def Direction.step : Direction → Int
  | .to => 1
  | .downto => -1

/-- A Python `range(start, stop, step)` object over `Int`. -/
structure PyRange where
  start : Int
  stop : Int
  step : Int
  deriving DecidableEq

/-- Python `len(range(start, stop, step))` for step 1 or -1:
`max(0, (stop - start) // step)`. -/
def PyRange.length (r : PyRange) : Nat :=
  if r.step = 1 then (r.stop - r.start).toNat else (r.start - r.stop).toNat

/-- Python `i in range(start, stop, step)` for an int `i` and step 1 or -1. -/
def PyRange.containsInt (r : PyRange) (i : Int) : Bool :=
  if r.step = 1 then r.start ≤ i ∧ i < r.stop
  else r.stop < i ∧ i ≤ r.start

/-- Python `range(...).index(i)`: the zero-based position of `i`, or
`ValueError` (`none`) when `i` is not a member; for a member,
`(i - start) // step`, which for step 1 or -1 is `(i - start) * step`. -/
def PyRange.indexOf (r : PyRange) (i : Int) : Option Nat :=
  if r.containsInt i then some ((i - r.start) * r.step).toNat else none

/-- Python `range(...)[k]` for `0 ≤ k < len`: `start + step * k`. -/
def PyRange.nth (r : PyRange) (k : Nat) : Int := r.start + r.step * k

/-- Python `range` equality (`range.__eq__`): two ranges are equal iff they
denote the same sequence — equal lengths; and, when nonempty, equal starts;
and, when longer than one element, equal steps. -/
def PyRange.beq (a b : PyRange) : Bool :=
  if a.length ≠ b.length then false
  else if a.length = 0 then true
  else if a.start ≠ b.start then false
  else if a.length = 1 then true
  else a.step == b.step

/-- The `Range` class: a wrapper holding the `_range` Python range. -/
structure Range where
  rng : PyRange
  deriving DecidableEq

/-- Constructor `Range(left, right)` (direction inferred by `_guess_step`):
`step = 1 if left <= right else -1`, `stop = right + step`. -/
def Range.make2 (left right : Int) : Range :=
  let step : Int := if left ≤ right then 1 else -1
  ⟨⟨left, right + step, step⟩⟩

/-- Constructor `Range(left, direction, right)`:
`step = _direction_to_step(direction)`, `stop = right + step`. -/
def Range.makeDir (left : Int) (d : Direction) (right : Int) : Range :=
  ⟨⟨left, right + d.step, d.step⟩⟩

/-- Property `Range.left`: `self._range.start`. -/
def Range.left (r : Range) : Int := r.rng.start

/-- Property `Range.right`: `self._range.stop - self._range.step`. -/
def Range.right (r : Range) : Int := r.rng.stop - r.rng.step

/-- Property `Range.direction` (via `_step_to_direction`). -/
def Range.direction (r : Range) : Direction :=
  if r.rng.step = 1 then .to else .downto

/-- Method `Range.__len__`. -/
def Range.length (r : Range) : Nat := r.rng.length

/-- Method `Range.index` (inherited `Sequence.index` resolved on the
underlying `range`). -/
def Range.indexOf (r : Range) (i : Int) : Option Nat := r.rng.indexOf i

/-- Element `r[k]` of the underlying range. -/
def Range.nth (r : Range) (k : Nat) : Int := r.rng.nth k

/-- Method `Range.__eq__`: `self._range == other._range`, Python range
equality. -/
def Range.beq (a b : Range) : Bool := PyRange.beq a.rng b.rng

/-- Well-formedness maintained by both constructors: the stored step is 1
or -1. -/
def Range.wfStep (r : Range) : Prop := r.rng.step = 1 ∨ r.rng.step = -1

instance (r : Range) : Decidable r.wfStep := by
  unfold Range.wfStep
  infer_instance

/-! ## ConstArray / Array (array.py) -/

/-- A `ConstArray` (and its mutable subclass `Array`, which shares the same
storage layout): the `_value` list and the `_range`. -/
structure ConstArray (α : Type) where
  value : List α
  range : Range
  deriving DecidableEq

/-- Constructor `ConstArray(value, range=None)`: default range
`Range(0, 'to', len(value) - 1)`; with an explicit range, `ValueError`
when the lengths disagree. -/
def ConstArray.make (value : List α) (range : Option Range) :
    Except String (ConstArray α) :=
  match range with
  | none => .ok ⟨value, Range.makeDir 0 .to ((value.length : Int) - 1)⟩
  | some r =>
    if value.length ≠ r.length then
      .error "ValueError: value does not fit in range"
    else
      .ok ⟨value, r⟩

/-- Property `left` of `AbstractConstArray`. -/
def ConstArray.left (a : ConstArray α) : Int := a.range.left

/-- Property `right` of `AbstractConstArray`. -/
def ConstArray.right (a : ConstArray α) : Int := a.range.right

/-- Method `ConstArray._index`: `self.range.index(index)`, translating the
`ValueError` into `IndexError` (`none` here). -/
def ConstArray.index_ (a : ConstArray α) (i : Int) : Option Nat :=
  a.range.indexOf i

/-- Method `ConstArray.__getitem__` with an int index. -/
def ConstArray.get (a : ConstArray α) (i : Int) : Except String α :=
  match a.index_ i with
  | none => .error "IndexError: index out of range"
  | some k =>
    match a.value[k]? with
    | none => .error "internal: storage shorter than range"
    | some x => .ok x

/-- Method `ConstArray.__getitem__` with a slice `[start:stop]` (step
already checked absent): default missing bounds to the array's own
`left`/`right`, build `Range(left, self.direction, right)`, raise
`IndexError` when that range is empty (wrong slice direction), map both
bounds through `_index`, then rebuild via the constructor from
`self._value[left_idx : right_idx + 1]`.  The Python list slice
`l[a : b + 1]` is `(l.drop a).take (b + 1 - a)`. -/
def ConstArray.getSlice (a : ConstArray α) (start stop : Option Int) :
    Except String (ConstArray α) :=
  let left := start.getD a.left
  let right := stop.getD a.right
  let r := Range.makeDir left a.range.direction right
  if r.length = 0 then
    .error "IndexError: slice direction does not match array direction"
  else
    match a.index_ left, a.index_ right with
    | some li, some ri =>
      ConstArray.make ((a.value.drop li).take (ri + 1 - li)) (some r)
    | _, _ => .error "IndexError: index out of range"

/-- Method `ConstArray.__eq__` between two arrays of the same concrete
type: `self._value == other._value` (the range is ignored). -/
def ConstArray.eq_ [BEq α] (a b : ConstArray α) : Bool := a.value == b.value

/-! ## LogicArray (logic_array.py)

`_ConstLogicArray`/`LogicArray` duplicate the `ConstArray` storage layout
(element type fixed to logic values), but `__getitem__` with a slice
differs from array.py: there is no empty-slice direction check, and the
storage slice taken is `self._value[left_idx:right_idx]` — without the
`+ 1` — before being passed to the constructor, which re-checks the
length against `Range(left, self.direction, right)`. -/

/-- A `_ConstLogicArray` / `LogicArray`. -/
structure LogicArrayV where
  value : List LogicVal
  range : Range
  deriving DecidableEq

/-- Constructor `_ConstLogicArray(value, range=None)`, same checks as
`ConstArray`. -/
def LogicArrayV.make (value : List LogicVal) (range : Option Range) :
    Except String LogicArrayV :=
  match range with
  | none => .ok ⟨value, Range.makeDir 0 .to ((value.length : Int) - 1)⟩
  | some r =>
    if value.length ≠ r.length then
      .error "ValueError: value does not fit in range"
    else
      .ok ⟨value, r⟩

/-- Method `_ConstLogicArray._index`. -/
def LogicArrayV.index_ (a : LogicArrayV) (i : Int) : Option Nat :=
  a.range.indexOf i

/-- Method `_ConstLogicArray.__getitem__` with an int index. -/
def LogicArrayV.get (a : LogicArrayV) (i : Int) : Except String LogicVal :=
  match a.index_ i with
  | none => .error "IndexError: index out of range"
  | some k =>
    match a.value[k]? with
    | none => .error "internal: storage shorter than range"
    | some x => .ok x

/-- Method `_ConstLogicArray.__getitem__` with a slice `[start:stop]`:
note the storage slice `self._value[left_idx:right_idx]`, i.e.
`(l.drop li).take (ri - li)`, one element shorter than the range
`Range(left, self.direction, right)` handed to the constructor. -/
def LogicArrayV.getSlice (a : LogicArrayV) (start stop : Option Int) :
    Except String LogicArrayV :=
  let left := start.getD a.range.left
  let right := stop.getD a.range.right
  match a.index_ left, a.index_ right with
  | some li, some ri =>
    LogicArrayV.make ((a.value.drop li).take (ri - li))
      (some (Range.makeDir left a.range.direction right))
  | _, _ => .error "IndexError: index out of range"

/-- Factory `StdLogicArray(value)` on a string literal: each character is
converted through `StdLogic(...)`, then the `LogicArray` constructor runs
with the default range. -/
def StdLogicArray (s : String) : Except String LogicArrayV :=
  match s.data.mapM (construct .std) with
  | none => .error "ValueError: bad literal"
  | some v => LogicArrayV.make v none

/-- Iteration order of an array (`AbstractConstArray.__iter__`): the
members of `self.range` in order, each fetched through `__getitem__`. -/
def LogicArrayV.iterIdx (a : LogicArrayV) : List Int :=
  (List.range a.range.length).map a.range.nth

/-- The string `"".join(str(v) for v in self)` built by
`_ConstLogicArray.__repr__` — the only place the element symbols are
rendered, since the class defines no `__str__` and `str()` falls back to
`__repr__`, which wraps this string as
`ClassName('<this string>', Range(...))`. -/
def LogicArrayV.reprValueString (a : LogicArrayV) : Option (List Char) :=
  a.iterIdx.mapM fun i =>
    match a.get i with
    | .ok v => v.str_
    | .error _ => none

/-- The reflected operator methods `_ConstLogicArray.__rand__`, `__ror__`,
`__rxor__` and `__radd__` all have body `...`: the `Ellipsis` expression is
evaluated and discarded and the method returns Python `None`.  Their common
embedding returns the `None` object. -/
inductive PyObject where
  | none
  | notImplemented
  | logicArr (a : LogicArrayV)
  deriving DecidableEq

/-- Method `_ConstLogicArray.__rand__` (and identically `__ror__`,
`__rxor__`, `__radd__`): empty body, returns `None`. -/
def LogicArrayV.rand_ (_self : LogicArrayV) (_other : PyObject) : PyObject :=
  .none

/-- Method `_ConstLogicArray.__ror__`. -/
def LogicArrayV.ror_ (_self : LogicArrayV) (_other : PyObject) : PyObject :=
  .none

/-- Method `_ConstLogicArray.__rxor__`. -/
def LogicArrayV.rxor_ (_self : LogicArrayV) (_other : PyObject) : PyObject :=
  .none

/-- Method `_ConstLogicArray.__radd__`. -/
def LogicArrayV.radd_ (_self : LogicArrayV) (_other : PyObject) : PyObject :=
  .none

/-- Python's dispatch for `x OP la` where `x` is not a logic array:
`x.__op__(la)` is evaluated first (its result is `leftResult`); when it is
`NotImplemented`, the reflected method of the logic array runs and its
return value — whatever it is, including `None` — becomes the value of the
expression.  Only a second `NotImplemented` would raise `TypeError`. -/
def pyDispatchReflected (leftResult : PyObject)
    (reflected : PyObject → PyObject) (x : PyObject) :
    Except String PyObject :=
  match leftResult with
  | .notImplemented =>
    match reflected x with
    | .notImplemented => .error "TypeError: unsupported operand type"
    | r => .ok r
  | r => .ok r

/-! ## Unsigned / Signed (integer.py) -/

/-- Python `int.bit_length` for a nonnegative argument: the number of
binary digits, counted by repeated halving.  The halving count is bounded
by the argument itself, which serves as a structural counter so that the
definition reduces by plain evaluation. -/
def bitLengthAux : Nat → Nat → Nat
  | _, 0 => 0
  | 0, _ + 1 => 0
  | fuel + 1, n + 1 => bitLengthAux fuel ((n + 1) / 2) + 1

/-- Python `int.bit_length` for a nonnegative argument. -/
def bitLength (n : Nat) : Nat := bitLengthAux n n

/-- The helper `_min_bit_length(value)`:
negative values need `bit_length(-value - 1) + 1` bits, positive values
`bit_length(value)`, zero needs 1. -/
def min_bit_length (v : Int) : Nat :=
  if v < 0 then bitLength (-v - 1).toNat + 1
  else if v > 0 then bitLength v.toNat
  else 1

/-- The helper `_signed_to_unsigned(value, n_bits)`. -/
def signed_to_unsigned (v : Int) (nBits : Nat) : Int :=
  if v < 0 then v + 2 ^ nBits else v

/-- An `Unsigned` value: the backing integer `_value` and the bit `_range`.
The backing integer is nonnegative for every constructible `Unsigned`
(`_signed_to_unsigned` adds `2 ** len(range)` to a negative value that
passed the width check), so it is stored as `Nat`. -/
structure Unsigned where
  value : Nat
  range : Range
  deriving DecidableEq

/-- Method `Unsigned.__len__` (from `AbstractConstArray`). -/
def Unsigned.len (u : Unsigned) : Nat := u.range.length

/-- Constructor `Unsigned.__init__` from an int: compute
`_min_bit_length`, default the range to `(length - 1) downto 0`, else
store `_signed_to_unsigned(value, len(range))` and raise `ValueError`
when `len(range) < length`. -/
def Unsigned.makeInt (v : Int) (range : Option Range) :
    Except String Unsigned :=
  let length := min_bit_length v
  match range with
  | none =>
    .ok ⟨(signed_to_unsigned v length).toNat,
      Range.makeDir ((length : Int) - 1) .downto 0⟩
  | some r =>
    if r.length < length then
      .error "ValueError: value cannot fit in range"
    else
      .ok ⟨(signed_to_unsigned v r.length).toNat, r⟩

/-- A `Signed` value: backing integer `_value` (stored signed) and bit
`_range`. -/
structure Signed where
  value : Int
  range : Range
  deriving DecidableEq

/-- Constructor `Signed.__init__` from an int, embedded verbatim: note the
guard `if len(self._range) >= length: raise ValueError()` — the
comparison as written in the source. -/
def Signed.makeInt (v : Int) (range : Option Range) :
    Except String Signed :=
  let length := min_bit_length v
  match range with
  | none => .ok ⟨v, Range.makeDir ((length : Int) - 1) .downto 0⟩
  | some r =>
    if r.length ≥ length then
      .error "ValueError"
    else
      .ok ⟨v, r⟩

/-- Method `Unsigned._index`: `len(self) - self.range.index(index) - 1`,
turning `ValueError` into `IndexError` (`none`). -/
def Unsigned.index_ (u : Unsigned) (i : Int) : Option Nat :=
  (u.range.indexOf i).map fun k => u.len - k - 1

/-- Method `Unsigned.__getitem__` with an int index:
`Bit((self._value >> idx) & 1)`. -/
def Unsigned.get (u : Unsigned) (i : Int) : Except String LogicVal :=
  match u.index_ i with
  | none => .error "IndexError: index out of range"
  | some idx =>
    match constructNat .bit ((u.value >>> idx) &&& 1) with
    | some b => .ok b
    | none => .error "ValueError"

/-- Method `Unsigned.__setitem__` with an int index and a value already
converted through `Bit(...)` (the code runs `bit_val = int(Bit(value))`;
any bit-convertible `value` reaches this point as its `Bit`):
`mask = ((1 << len(self)) - 1) ^ (1 << idx)`,
`self._value = (self._value & mask) | (bit_val << idx)`. -/
def Unsigned.set (u : Unsigned) (i : Int) (b : LogicVal) :
    Except String Unsigned :=
  match u.index_ i with
  | none => .error "IndexError: index out of range"
  | some idx =>
    match b.toInt with
    | none => .error "ValueError: not a 0/1 value"
    | some bv =>
      let mask := ((1 <<< u.len) - 1) ^^^ (1 <<< idx)
      .ok ⟨(u.value &&& mask) ||| (bv <<< idx), u.range⟩

/-- The wider of two concrete logic subtypes in the chain
`Bit <: X01Z <: StdLogic` (the superclass of the two). -/
def LogicSub.wider (a b : LogicSub) : LogicSub :=
  if a.isinstanceOf b then b else a

/-- Boolean check that a `PyResult` is `ok` with a value satisfying `p`. -/
def PyResult.okSatisfies (x : PyResult α) (p : α → Bool) : Bool :=
  match x with
  | .ok v => p v
  | _ => false

/-- Boolean check of claim C2 at one symbol: the `Bit`, `X01Z` and
`StdLogic` constructions all succeed, compare equal by `==` in either
operand order, hash identically, and a hashed collection holding the
`StdLogic` value contains the `Bit` value. -/
def substitutableAt (s : Char) : Bool :=
  match construct .bit s, construct .x01z s, construct .std s with
  | some vb, some vx, some vs =>
    pyEq vb vx && pyEq vx vb && pyEq vb vs && pyEq vs vb &&
    pyEq vx vs && pyEq vs vx &&
    (vb.hash_ == vx.hash_) && (vx.hash_ == vs.hash_) &&
    hashedContains [vs] vb
  | _, _, _ => false

/-- Position lookup composed with a partial function: the shape of one
iteration step of `__iter__`-driven rendering over backing storage. -/
def lookupThen {α β : Type} (v : List α) (g : α → Option β) (k : Nat) :
    Option β :=
  match v[k]? with
  | some x => g x
  | none => none

/-! ## Theorems -/

/-- Claim C1 is false on the code: the binary operator methods check
`isinstance(other, type(self))`, not exact type equality, so an operand of
a strictly narrower concrete subtype is accepted and a result is computed.
Here `StdLogic('0') & Bit('0')` computes `StdLogic('0')` directly — no
`NotImplemented` — even though the concrete subtypes differ, and likewise
for the dispatched expressions with each operator. -/
theorem stdlogic_cross_subtype_computes :
    construct .std '0' = some ⟨.std, 2⟩ ∧
    construct .bit '0' = some ⟨.bit, 2⟩ ∧
    LogicVal.and_ ⟨.std, 2⟩ ⟨.bit, 2⟩ = .ok ⟨.std, 2⟩ ∧
    LogicVal.or_ ⟨.std, 2⟩ ⟨.bit, 2⟩ = .ok ⟨.std, 2⟩ ∧
    LogicVal.xor_ ⟨.std, 2⟩ ⟨.bit, 2⟩ = .ok ⟨.std, 2⟩ ∧
    pyAnd ⟨.std, 2⟩ ⟨.bit, 2⟩ = .ok ⟨.std, 2⟩ ∧
    pyOr ⟨.std, 2⟩ ⟨.bit, 2⟩ = .ok ⟨.std, 2⟩ ∧
    pyXor ⟨.std, 2⟩ ⟨.bit, 2⟩ = .ok ⟨.std, 2⟩ := by decide

/-- Claim C1, amended: a logic value binary operator method returns
`NotImplemented` exactly when the other operand's concrete subtype is not
the same as or a subclass of the self operand's concrete subtype; at the
expression level the reflected retry means `a & b`, `a | b` and `a ^ b`
always compute a valid result whose concrete subtype is the wider of the
two operand subtypes. -/
theorem logic_binop_notimplemented_iff_not_instance :
    ∀ sa ∈ [LogicSub.std, LogicSub.x01z, LogicSub.bit],
    ∀ sb ∈ [LogicSub.std, LogicSub.x01z, LogicSub.bit],
    ∀ ca ∈ sa.values, ∀ cb ∈ sb.values,
      (LogicVal.and_ ⟨sa, ca⟩ ⟨sb, cb⟩ = .notImplemented ↔
        sb.isinstanceOf sa = false) ∧
      (LogicVal.or_ ⟨sa, ca⟩ ⟨sb, cb⟩ = .notImplemented ↔
        sb.isinstanceOf sa = false) ∧
      (LogicVal.xor_ ⟨sa, ca⟩ ⟨sb, cb⟩ = .notImplemented ↔
        sb.isinstanceOf sa = false) ∧
      (pyAnd ⟨sa, ca⟩ ⟨sb, cb⟩).okSatisfies
        (fun r => r.sub == sa.wider sb && decide r.valid) = true ∧
      (pyOr ⟨sa, ca⟩ ⟨sb, cb⟩).okSatisfies
        (fun r => r.sub == sa.wider sb && decide r.valid) = true ∧
      (pyXor ⟨sa, ca⟩ ⟨sb, cb⟩).okSatisfies
        (fun r => r.sub == sa.wider sb && decide r.valid) = true := by decide

/-- Witness for the amended claim C1 at `a = X01Z('X')`, `b = Bit('1')`. -/
theorem logic_binop_notimplemented_iff_not_instance_witness :
    (LogicVal.and_ ⟨.x01z, 1⟩ ⟨.bit, 3⟩ = .notImplemented ↔
      LogicSub.isinstanceOf .bit .x01z = false) ∧
    (LogicVal.or_ ⟨.x01z, 1⟩ ⟨.bit, 3⟩ = .notImplemented ↔
      LogicSub.isinstanceOf .bit .x01z = false) ∧
    (LogicVal.xor_ ⟨.x01z, 1⟩ ⟨.bit, 3⟩ = .notImplemented ↔
      LogicSub.isinstanceOf .bit .x01z = false) ∧
    (pyAnd ⟨.x01z, 1⟩ ⟨.bit, 3⟩).okSatisfies
      (fun r => r.sub == LogicSub.wider .x01z .bit && decide r.valid) = true ∧
    (pyOr ⟨.x01z, 1⟩ ⟨.bit, 3⟩).okSatisfies
      (fun r => r.sub == LogicSub.wider .x01z .bit && decide r.valid) = true ∧
    (pyXor ⟨.x01z, 1⟩ ⟨.bit, 3⟩).okSatisfies
      (fun r => r.sub == LogicSub.wider .x01z .bit && decide r.valid) = true :=
  logic_binop_notimplemented_iff_not_instance
    .x01z (by decide) .bit (by decide) 1 (by decide) 3 (by decide)

/-- Claim C2: for each symbol of `Bit`'s permitted set, the `Bit`, `X01Z`
and `StdLogic` constructions all succeed, compare equal in either operand
order, hash identically, and a hashed collection holding the `StdLogic`
value contains the `Bit` value. -/
theorem subtype_substitutability :
    ∀ s ∈ (['0', '1'] : List Char), substitutableAt s = true := by decide

/-- Witness for claim C2 at the symbol `'0'`. -/
theorem subtype_substitutability_witness : substitutableAt '0' = true :=
  subtype_substitutability '0' (by decide)

/-- Claim C6: every permitted set of the hierarchy is closed under the four
table operators — for operands of one and the same concrete subtype, the
re-validation of the table result against that subtype's permitted set
always succeeds and yields a valid value of that subtype. -/
theorem truth_table_closure :
    ∀ sub ∈ [LogicSub.std, LogicSub.x01z, LogicSub.bit],
    ∀ a ∈ sub.values, ∀ b ∈ sub.values,
      (LogicVal.and_ ⟨sub, a⟩ ⟨sub, b⟩).okSatisfies
        (fun r => r.sub == sub && decide r.valid) = true ∧
      (LogicVal.or_ ⟨sub, a⟩ ⟨sub, b⟩).okSatisfies
        (fun r => r.sub == sub && decide r.valid) = true ∧
      (LogicVal.xor_ ⟨sub, a⟩ ⟨sub, b⟩).okSatisfies
        (fun r => r.sub == sub && decide r.valid) = true ∧
      (LogicVal.invert ⟨sub, a⟩).okSatisfies
        (fun r => r.sub == sub && decide r.valid) = true := by decide

/-- Witness for claim C6 at `Bit('1') op Bit('1')`. -/
theorem truth_table_closure_witness :
    (LogicVal.and_ ⟨.bit, 3⟩ ⟨.bit, 3⟩).okSatisfies
      (fun r => r.sub == LogicSub.bit && decide r.valid) = true ∧
    (LogicVal.or_ ⟨.bit, 3⟩ ⟨.bit, 3⟩).okSatisfies
      (fun r => r.sub == LogicSub.bit && decide r.valid) = true ∧
    (LogicVal.xor_ ⟨.bit, 3⟩ ⟨.bit, 3⟩).okSatisfies
      (fun r => r.sub == LogicSub.bit && decide r.valid) = true ∧
    (LogicVal.invert ⟨.bit, 3⟩).okSatisfies
      (fun r => r.sub == LogicSub.bit && decide r.valid) = true :=
  truth_table_closure .bit (by decide) 3 (by decide) 3 (by decide)

/-- Claim C5, evaluated at the decisive inputs: `Unsigned` raises exactly
when the supplied bit range is narrower than the minimal bit length
(`Unsigned(5, ...)` needs 3 bits), but `Signed.__init__` has the width
guard inverted — `if len(self._range) >= length: raise ValueError()` — so
`Signed(5, Range(10, 'downto', 0))` (11 bits, amply wide) raises while
`Signed(5, Range(1, 'downto', 0))` (2 bits, too narrow for 5) succeeds. -/
theorem width_check_eval :
    min_bit_length 5 = 3 ∧
    Unsigned.makeInt 5 (some (Range.makeDir 2 .downto 0)) =
      .ok ⟨5, Range.makeDir 2 .downto 0⟩ ∧
    Unsigned.makeInt 5 (some (Range.makeDir 1 .downto 0)) =
      .error "ValueError: value cannot fit in range" ∧
    Signed.makeInt 5 (some (Range.makeDir 10 .downto 0)) =
      .error "ValueError" ∧
    Signed.makeInt 5 (some (Range.makeDir 1 .downto 0)) =
      .ok ⟨5, Range.makeDir 1 .downto 0⟩ :=
  ⟨rfl, rfl, rfl, rfl, rfl⟩

/-- Claim C3, evaluated: the generic array layer slices inclusively — the
spec's own example `Array("abcdef", Range(100, 'to', 105))[104:]` yields
elements `['e', 'f']` with range `Range(104, 'to', 105)` — but the logic
array layer drops the `+ 1` on the right storage index, handing the
constructor one element fewer than the requested range, so every
nonempty logic array slice raises `ValueError`; here
`StdLogicArray("01")[0:1]`. -/
theorem logic_array_slice_off_by_one :
    (ConstArray.make "abcdef".data (some (Range.makeDir 100 .to 105)) =
      .ok ⟨"abcdef".data, Range.makeDir 100 .to 105⟩) ∧
    (ConstArray.getSlice ⟨"abcdef".data, Range.makeDir 100 .to 105⟩
      (some 104) none = .ok ⟨['e', 'f'], Range.makeDir 104 .to 105⟩) ∧
    (StdLogicArray "01" =
      .ok ⟨[⟨.std, 2⟩, ⟨.std, 3⟩], Range.makeDir 0 .to 1⟩) ∧
    (LogicArrayV.getSlice ⟨[⟨.std, 2⟩, ⟨.std, 3⟩], Range.makeDir 0 .to 1⟩
      (some 0) (some 1) = .error "ValueError: value does not fit in range") :=
  ⟨rfl, rfl, rfl, rfl⟩

/-- Claim C10: when the left operand of `&`, `|`, `^` or `+` is not a logic
array and its own operator method returns `NotImplemented`, the host
dispatch calls the logic array's reflected method, whose empty body
returns `None`, and the whole expression evaluates to `None` — no logic
array and no error. -/
theorem reflected_operators_return_none (la : LogicArrayV) (x : PyObject)
    (leftResult : PyObject) (h : leftResult = PyObject.notImplemented) :
    pyDispatchReflected leftResult la.rand_ x = .ok .none ∧
    pyDispatchReflected leftResult la.ror_ x = .ok .none ∧
    pyDispatchReflected leftResult la.rxor_ x = .ok .none ∧
    pyDispatchReflected leftResult la.radd_ x = .ok .none := by
  subst h
  exact ⟨rfl, rfl, rfl, rfl⟩

/-- Witness for claim C10: `7 & StdLogicArray("0")` — the int's own
`__and__` defers, the array's `__rand__` returns `None`. -/
theorem reflected_operators_return_none_witness :
    pyDispatchReflected .notImplemented
      (LogicArrayV.rand_ ⟨[⟨.std, 2⟩], Range.makeDir 0 .to 0⟩) .none =
        .ok .none ∧
    pyDispatchReflected .notImplemented
      (LogicArrayV.ror_ ⟨[⟨.std, 2⟩], Range.makeDir 0 .to 0⟩) .none =
        .ok .none ∧
    pyDispatchReflected .notImplemented
      (LogicArrayV.rxor_ ⟨[⟨.std, 2⟩], Range.makeDir 0 .to 0⟩) .none =
        .ok .none ∧
    pyDispatchReflected .notImplemented
      (LogicArrayV.radd_ ⟨[⟨.std, 2⟩], Range.makeDir 0 .to 0⟩) .none =
        .ok .none :=
  reflected_operators_return_none ⟨[⟨.std, 2⟩], Range.makeDir 0 .to 0⟩
    .none .notImplemented rfl

/-- Claim C4 is false on the code: `Range.__eq__` compares the underlying
Python `range` objects, and Python range equality is by denoted sequence,
so the null ranges `Range(1, 'to', 0)` and `Range(5, 'downto', 6)` compare
equal even though all three of `left`, `right` and `direction` differ. -/
theorem null_ranges_compare_equal :
    Range.beq (Range.makeDir 1 .to 0) (Range.makeDir 5 .downto 6) = true ∧
    (Range.makeDir 1 .to 0).left ≠ (Range.makeDir 5 .downto 6).left ∧
    (Range.makeDir 1 .to 0).right ≠ (Range.makeDir 5 .downto 6).right ∧
    (Range.makeDir 1 .to 0).direction ≠ (Range.makeDir 5 .downto 6).direction ∧
    (Range.makeDir 1 .to 0).length = 0 ∧
    (Range.makeDir 5 .downto 6).length = 0 := by decide

/-- Claim C8 is false on the code for length 0: the full slice of an empty
array does not return an equal array — the reconstructed empty sub-range
fails the slice-direction check and `IndexError` is raised. -/
theorem empty_array_full_slice_raises :
    ConstArray.make ([] : List Nat) none =
      .ok ⟨[], Range.makeDir 0 .to (-1)⟩ ∧
    ConstArray.getSlice (⟨[], Range.makeDir 0 .to (-1)⟩ : ConstArray Nat)
      none none =
      .error "IndexError: slice direction does not match array direction" :=
  ⟨rfl, rfl⟩

/-- A member's index is below the range's length. -/
theorem Range.indexOf_lt_length {r : Range} (hw : r.wfStep) {i : Int}
    {k : Nat} (h : r.indexOf i = some k) : k < r.length := by
  obtain ⟨⟨st, sp, stp⟩⟩ := r
  simp only [Range.indexOf, PyRange.indexOf, PyRange.containsInt,
    Range.length, PyRange.length, Range.wfStep] at h hw ⊢
  rcases hw with h1 | h1 <;> subst h1 <;> simp_all <;> omega

/-- The member at a given index: `indexOf` inverts `nth`. -/
theorem Range.nth_indexOf {r : Range} (hw : r.wfStep) {i : Int} {k : Nat}
    (h : r.indexOf i = some k) : r.nth k = i := by
  obtain ⟨⟨st, sp, stp⟩⟩ := r
  simp only [Range.indexOf, PyRange.indexOf, PyRange.containsInt,
    Range.nth, PyRange.nth, Range.wfStep] at h hw ⊢
  rcases hw with h1 | h1 <;> subst h1 <;> simp_all <;> omega

/-- Every position below the length indexes the member it denotes. -/
theorem Range.indexOf_nth {r : Range} (hw : r.wfStep) {k : Nat}
    (hk : k < r.length) : r.indexOf (r.nth k) = some k := by
  obtain ⟨⟨st, sp, stp⟩⟩ := r
  simp only [Range.indexOf, PyRange.indexOf, PyRange.containsInt,
    Range.nth, PyRange.nth, Range.length, PyRange.length,
    Range.wfStep] at hk hw ⊢
  rcases hw with h1 | h1 <;> subst h1 <;> simp_all <;> omega

/-- Claim C4, amended: `Range` equality is the Python sequence equality of
the underlying half-open ranges — two ranges are equal iff they denote the
same integer sequence: equal lengths, and, when nonempty, the same members
position by position.  Exact field equality is sufficient but not
necessary; in particular all null ranges are equal to each other. -/
theorem range_eq_iff_same_sequence (r1 r2 : Range)
    (hw1 : r1.wfStep) (hw2 : r2.wfStep) :
    Range.beq r1 r2 = true ↔
      (r1.length = r2.length ∧
        ∀ k, k < r1.length → r1.nth k = r2.nth k) := by
  obtain ⟨a⟩ := r1
  obtain ⟨b⟩ := r2
  simp only [Range.beq, PyRange.beq, Range.length, Range.nth, PyRange.nth]
  by_cases hlen : a.length = b.length
  · rw [if_neg (not_not_intro hlen)]
    by_cases h0 : a.length = 0
    · rw [if_pos h0]
      constructor
      · intro _
        exact ⟨hlen, fun k hk => absurd hk (by omega)⟩
      · intro _
        rfl
    · rw [if_neg h0]
      by_cases hstart : a.start = b.start
      · rw [if_neg (not_not_intro hstart)]
        by_cases hl1 : a.length = 1
        · rw [if_pos hl1]
          constructor
          · intro _
            refine ⟨hlen, fun k hk => ?_⟩
            have hk0 : k = 0 := by omega
            subst hk0
            simp [hstart]
          · intro _
            rfl
        · rw [if_neg hl1]
          rw [beq_iff_eq]
          constructor
          · intro hstep
            refine ⟨hlen, fun k hk => ?_⟩
            rw [hstart, hstep]
          · rintro ⟨-, hseq⟩
            have h1 := hseq 1 (by omega)
            simp only [Nat.cast_one, mul_one] at h1
            omega
      · rw [if_pos hstart]
        constructor
        · intro h
          exact absurd h (by simp)
        · rintro ⟨-, hseq⟩
          have h := hseq 0 (by omega)
          simp only [Nat.cast_zero, mul_zero, add_zero] at h
          exact absurd h hstart
  · rw [if_pos hlen]
    constructor
    · intro h
      exact absurd h (by simp)
    · rintro ⟨h, -⟩
      exact absurd h hlen

/-- Witness for the amended claim C4 at the two null ranges of the
counterexample. -/
theorem range_eq_iff_same_sequence_witness :
    Range.beq (Range.makeDir 1 .to 0) (Range.makeDir 5 .downto 6) = true ↔
      ((Range.makeDir 1 .to 0).length = (Range.makeDir 5 .downto 6).length ∧
        ∀ k, k < (Range.makeDir 1 .to 0).length →
          (Range.makeDir 1 .to 0).nth k = (Range.makeDir 5 .downto 6).nth k) :=
  range_eq_iff_same_sequence (Range.makeDir 1 .to 0)
    (Range.makeDir 5 .downto 6) (by decide) (by decide)

/-- Extracting one bit: `(x >> n) & 1` is the indicator of `testBit`. -/
theorem shiftRight_and_one (x n : Nat) :
    (x >>> n) &&& 1 = if x.testBit n then 1 else 0 := by
  rw [Nat.and_one_is_mod, Nat.shiftRight_eq_div_pow, Nat.testBit_to_div_mod]
  split <;> rename_i h <;> simp at h <;> omega

/-- Claim C7: reading bit `i` of an `Unsigned` shifts the backing integer
by `len(u) - range.index(i) - 1` and masks with 1, writing uses the same
reversed position (the shared `_index`), and the last member of the
nominal range always addresses bit 0, the least-significant bit,
regardless of direction. -/
theorem unsigned_reversed_bit_indexing (u : Unsigned) (hw : u.range.wfStep)
    (i : Int) (k : Nat) (hk : u.range.indexOf i = some k) :
    u.index_ i = some (u.len - k - 1) ∧
    u.get i = .ok ⟨.bit, 2 + ((u.value >>> (u.len - k - 1)) &&& 1)⟩ ∧
    (∀ b bv, b.toInt = some bv →
      u.set i b = .ok ⟨(u.value &&&
          (((1 <<< u.len) - 1) ^^^ (1 <<< (u.len - k - 1)))) |||
          (bv <<< (u.len - k - 1)), u.range⟩) ∧
    (i = u.range.nth (u.len - 1) → u.index_ i = some 0) := by
  have hidx : u.index_ i = some (u.len - k - 1) := by
    simp [Unsigned.index_, hk]
  refine ⟨hidx, ?_, ?_, ?_⟩
  · unfold Unsigned.get
    rw [hidx]
    have hm : (u.value >>> (u.len - k - 1)) &&& 1 ≤ 1 := by
      rw [Nat.and_one_is_mod]
      omega
    rcases Nat.le_one_iff_eq_zero_or_eq_one.mp hm with h1 | h1 <;>
      simp [h1, constructNat, literalReprNat, LogicSub.values]
  · intro b bv hbv
    unfold Unsigned.set
    rw [hidx, hbv]
  · intro hi
    have hkl : k < u.range.length := Range.indexOf_lt_length hw hk
    have hlast : u.range.indexOf (u.range.nth (u.range.length - 1)) =
        some (u.range.length - 1) :=
      Range.indexOf_nth hw (by omega)
    have hlen : u.len = u.range.length := rfl
    rw [hlen] at hi
    rw [← hi] at hlast
    rw [hk] at hlast
    have hkeq : k = u.range.length - 1 := Option.some.inj hlast
    rw [hidx, hkeq, hlen]
    congr 1
    omega

/-- Witness for claim C7 at `Unsigned(5, Range(3, 'downto', 0))`, `i = 0`:
the index 0 is the last member of the descending range, position 3 in the
range, and addresses bit 0. -/
theorem unsigned_reversed_bit_indexing_witness :
    Unsigned.index_ ⟨5, Range.makeDir 3 .downto 0⟩ 0 = some 0 ∧
    Unsigned.get ⟨5, Range.makeDir 3 .downto 0⟩ 0 =
      .ok ⟨.bit, 2 + ((5 >>> 0) &&& 1)⟩ ∧
    (∀ b bv, b.toInt = some bv →
      Unsigned.set ⟨5, Range.makeDir 3 .downto 0⟩ 0 b =
        .ok ⟨(5 &&& (((1 <<< 4) - 1) ^^^ (1 <<< 0))) ||| (bv <<< 0),
          Range.makeDir 3 .downto 0⟩) ∧
    ((0 : Int) = (Range.makeDir 3 .downto 0).nth 3 →
      Unsigned.index_ ⟨5, Range.makeDir 3 .downto 0⟩ 0 = some 0) := by
  have h := unsigned_reversed_bit_indexing ⟨5, Range.makeDir 3 .downto 0⟩
    (by decide) 0 3 (by decide)
  exact h

/-- The bits of `1` as a numeral: only bit 0 is set. -/
theorem testBit_one_iff (t : Nat) : Nat.testBit 1 t = decide (t = 0) := by
  cases t with
  | zero => simp [Nat.testBit_one_zero]
  | succ t => rw [Nat.testBit_succ]; simp

/-- Bit `p` of `(v & (((1 << len) - 1) ^ (1 << idx))) | (bv << idx)` — the
update computed by `Unsigned.__setitem__`: position `idx` now holds `bv`,
every other position below `len` is unchanged, and everything from `len`
up is cleared. -/
theorem testBit_masked_update (v bv len idx p : Nat)
    (hidx : idx < len) (hbv : bv ≤ 1) :
    ((v &&& (((1 <<< len) - 1) ^^^ (1 <<< idx))) ||| (bv <<< idx)).testBit p =
      if p = idx then bv == 1
      else if p < len then v.testBit p
      else false := by
  simp only [Nat.testBit_or, Nat.testBit_and, Nat.testBit_xor,
    Nat.one_shiftLeft, Nat.testBit_two_pow_sub_one, Nat.testBit_two_pow,
    Nat.testBit_shiftLeft, testBit_one_iff]
  by_cases hp : p = idx
  · subst hp
    rcases Nat.le_one_iff_eq_zero_or_eq_one.mp hbv with hb | hb <;> subst hb <;>
      simp [hidx, Nat.zero_testBit, testBit_one_iff]
  · by_cases hpl : p < len
    · have hsub : ¬(idx ≤ p ∧ p - idx = 0) := by omega
      rcases Nat.le_one_iff_eq_zero_or_eq_one.mp hbv with hb | hb <;> subst hb <;>
        by_cases hge : idx ≤ p <;>
          simp [hp, hpl, hge, Nat.zero_testBit, testBit_one_iff,
            Ne.symm hp, show ¬(p - idx = 0) ∨ ¬(idx ≤ p) from by omega]
      all_goals omega
    · have hge : idx ≤ p := by omega
      rcases Nat.le_one_iff_eq_zero_or_eq_one.mp hbv with hb | hb <;> subst hb <;>
        simp [hp, hpl, hge, Nat.zero_testBit, testBit_one_iff, Ne.symm hp]
      all_goals omega

/-- Reading a member bit of an `Unsigned` given the resolved storage
position, spelled on an explicit structure literal. -/
theorem unsigned_get_bit_mk (v : Nat) (r : Range) (i : Int) (idx : Nat)
    (hidx : Unsigned.index_ ⟨v, r⟩ i = some idx) :
    Unsigned.get ⟨v, r⟩ i = .ok ⟨.bit, 2 + ((v >>> idx) &&& 1)⟩ := by
  unfold Unsigned.get
  rw [hidx]
  have hm : (v >>> idx) &&& 1 ≤ 1 := by
    rw [Nat.and_one_is_mod]
    omega
  rcases Nat.le_one_iff_eq_zero_or_eq_one.mp hm with h1 | h1 <;>
    simp [h1, constructNat, literalReprNat, LogicSub.values]

/-- Reading at a non-member raises `IndexError`, spelled on an explicit
structure literal. -/
theorem unsigned_get_none_mk (v : Nat) (r : Range) (i : Int)
    (hidx : Unsigned.index_ ⟨v, r⟩ i = none) :
    Unsigned.get ⟨v, r⟩ i = .error "IndexError: index out of range" := by
  unfold Unsigned.get
  rw [hidx]

/-- Claim C9: writing bit `i` of an in-bounds `Unsigned` succeeds, leaves
the range untouched, keeps the backing integer inside `[0, 2^len)`, makes
the bit read back at `i` equal to the written `Bit`, and leaves the bit
read at every other index unchanged (including the error outcome at
non-members). -/
theorem unsigned_setitem_frame (u : Unsigned) (hw : u.range.wfStep)
    (hv : u.value < 2 ^ u.len)
    (i : Int) (k : Nat) (hk : u.range.indexOf i = some k)
    (b : LogicVal) (hsub : b.sub = .bit) (hval : b.valid) :
    ∃ u2, u.set i b = .ok u2 ∧
      u2.range = u.range ∧
      u2.value < 2 ^ u.len ∧
      u2.get i = .ok b ∧
      ∀ j, j ≠ i → u2.get j = u.get j := by
  obtain ⟨sb, cb⟩ := b
  cases hsub
  have hcb : cb = 2 ∨ cb = 3 := by
    simpa [LogicVal.valid, LogicSub.values] using hval
  have hkl : k < u.range.length := Range.indexOf_lt_length hw hk
  have hlen : u.len = u.range.length := rfl
  have hidxlt : u.len - k - 1 < u.len := by omega
  have hidx : u.index_ i = some (u.len - k - 1) := by
    simp [Unsigned.index_, hk]
  have hbv : cb - 2 ≤ 1 := by omega
  have htoint : LogicVal.toInt ⟨.bit, cb⟩ = some (cb - 2) := by
    rcases hcb with h | h <;> subst h <;> rfl
  set idx := u.len - k - 1 with hidxdef
  set bv := cb - 2 with hbvdef
  set v2 : Nat :=
    (u.value &&& (((1 <<< u.len) - 1) ^^^ (1 <<< idx))) ||| (bv <<< idx) with
    hv2def
  have hset : u.set i ⟨.bit, cb⟩ = .ok ⟨v2, u.range⟩ := by
    unfold Unsigned.set
    rw [hidx, htoint]
  refine ⟨⟨v2, u.range⟩, hset, rfl, ?_, ?_, ?_⟩
  · -- the updated value still fits in len bits
    show v2 < 2 ^ u.len
    have h1 : u.value &&& (((1 <<< u.len) - 1) ^^^ (1 <<< idx)) < 2 ^ u.len :=
      Nat.lt_of_le_of_lt Nat.and_le_left hv
    have h2 : bv <<< idx < 2 ^ u.len := by
      rw [Nat.shiftLeft_eq]
      calc bv * 2 ^ idx ≤ 1 * 2 ^ idx := Nat.mul_le_mul_right _ hbv
        _ = 2 ^ idx := Nat.one_mul _
        _ < 2 ^ u.len := Nat.pow_lt_pow_of_lt (by norm_num) hidxlt
    exact Nat.or_lt_two_pow h1 h2
  · -- reading back at i gives the written bit
    have hidx2 : Unsigned.index_ ⟨v2, u.range⟩ i = some idx := hidx
    rw [unsigned_get_bit_mk v2 u.range i idx hidx2]
    have hbit : (v2 >>> idx) &&& 1 = bv := by
      rw [shiftRight_and_one, hv2def,
        testBit_masked_update u.value bv u.len idx idx hidxlt hbv,
        if_pos rfl]
      rcases Nat.le_one_iff_eq_zero_or_eq_one.mp hbv with h | h <;> rw [h] <;>
        rfl
    rw [hbit]
    have h2bv : 2 + bv = cb := by omega
    rw [h2bv]
  · -- every other index reads the same bit as before
    intro j hj
    cases hidxj : u.index_ j with
    | none =>
      have e1 : Unsigned.index_ ⟨v2, u.range⟩ j = none := hidxj
      rw [unsigned_get_none_mk v2 u.range j e1,
        unsigned_get_none_mk u.value u.range j hidxj]
    | some idxj =>
      obtain ⟨kj, hkj, hkjidx⟩ : ∃ kj, u.range.indexOf j = some kj ∧
          idxj = u.len - kj - 1 := by
        unfold Unsigned.index_ at hidxj
        cases hkj : u.range.indexOf j with
        | none => rw [hkj] at hidxj; cases hidxj
        | some kj =>
          rw [hkj] at hidxj
          exact ⟨kj, rfl, (Option.some.inj hidxj).symm⟩
      have hkjl : kj < u.range.length := Range.indexOf_lt_length hw hkj
      have hkne : kj ≠ k := by
        intro hkeq
        apply hj
        have h1 := Range.nth_indexOf hw hkj
        have h2 := Range.nth_indexOf hw hk
        rw [← h1, ← h2, hkeq]
      have hne : idxj ≠ idx := by omega
      have hjl : idxj < u.len := by omega
      have e1 : Unsigned.index_ ⟨v2, u.range⟩ j = some idxj := hidxj
      rw [unsigned_get_bit_mk v2 u.range j idxj e1,
        unsigned_get_bit_mk u.value u.range j idxj hidxj]
      have hbit : (v2 >>> idxj) &&& 1 = (u.value >>> idxj) &&& 1 := by
        rw [shiftRight_and_one, shiftRight_and_one, hv2def,
          testBit_masked_update u.value bv u.len idx idxj hidxlt hbv,
          if_neg hne, if_pos hjl]
      rw [hbit]

/-- Witness for claim C9 at `Unsigned(3, Range(1, 'downto', 0))`, writing
`Bit('0')` at index 1. -/
theorem unsigned_setitem_frame_witness :
    ∃ u2, Unsigned.set ⟨3, Range.makeDir 1 .downto 0⟩ 1 ⟨.bit, 2⟩ = .ok u2 ∧
      u2.range = Range.makeDir 1 .downto 0 ∧
      u2.value < 2 ^ (Unsigned.len ⟨3, Range.makeDir 1 .downto 0⟩) ∧
      u2.get 1 = .ok ⟨.bit, 2⟩ ∧
      ∀ j, j ≠ (1 : Int) →
        u2.get j = Unsigned.get ⟨3, Range.makeDir 1 .downto 0⟩ j :=
  unsigned_setitem_frame ⟨3, Range.makeDir 1 .downto 0⟩ (by decide)
    (by decide) 1 0 (by decide) ⟨.bit, 2⟩ rfl (by decide)

/-- The left bound is the member at position 0. -/
theorem Range.left_eq_nth_zero (r : Range) : r.left = r.nth 0 := by
  simp [Range.left, Range.nth, PyRange.nth]

/-- The right bound of a nonempty range is its last member. -/
theorem Range.right_eq_nth_last (r : Range) (hw : r.wfStep)
    (hpos : 0 < r.length) : r.right = r.nth (r.length - 1) := by
  obtain ⟨⟨st, sp, stp⟩⟩ := r
  simp only [Range.right, Range.nth, PyRange.nth, Range.length,
    PyRange.length] at hpos ⊢
  rcases hw with h1 | h1 <;> subst h1 <;> simp_all <;> omega

/-- Rebuilding a range from its own `left`, `direction` and `right` gives
the range back. -/
theorem Range.makeDir_left_right (r : Range) (hw : r.wfStep) :
    Range.makeDir r.left r.direction r.right = r := by
  obtain ⟨⟨st, sp, stp⟩⟩ := r
  rcases hw with h1 | h1 <;> subst h1 <;>
    simp [Range.makeDir, Range.left, Range.right, Range.direction,
      Direction.step]

/-- Part of claim C8: on the generic array layer, the full slice of any
array of positive length returns the array itself — same storage, same
range. -/
theorem const_array_full_slice {α : Type} (a : ConstArray α)
    (hlen : a.value.length = a.range.length) (hw : a.range.wfStep)
    (hpos : 0 < a.range.length) :
    a.getSlice none none = .ok a := by
  unfold ConstArray.getSlice
  simp only [Option.getD_none, ConstArray.left, ConstArray.right]
  rw [Range.makeDir_left_right a.range hw]
  rw [if_neg (by omega)]
  have hL : a.index_ a.range.left = some 0 := by
    show a.range.indexOf a.range.left = some 0
    rw [Range.left_eq_nth_zero]
    exact Range.indexOf_nth hw hpos
  have hR : a.index_ a.range.right = some (a.range.length - 1) := by
    show a.range.indexOf a.range.right = some (a.range.length - 1)
    rw [Range.right_eq_nth_last a.range hw hpos]
    exact Range.indexOf_nth hw (by omega)
  rw [hL, hR]
  show ConstArray.make ((a.value.drop 0).take (a.range.length - 1 + 1 - 0))
    (some a.range) = .ok a
  rw [List.drop_zero]
  have hcount : a.range.length - 1 + 1 - 0 = a.value.length := by omega
  rw [hcount, List.take_length]
  show (if a.value.length ≠ a.range.length then
      (Except.error "ValueError: value does not fit in range" :
        Except String (ConstArray α))
    else Except.ok ⟨a.value, a.range⟩) = Except.ok a
  rw [if_neg (not_not_intro hlen)]

/-- `mapM` over a mapped list composes the functions. -/
theorem mapM_map_comp {α β γ : Type} (l : List α) (f : α → β)
    (g : β → Option γ) :
    (l.map f).mapM g = l.mapM fun x => g (f x) := by
  induction l with
  | nil => rfl
  | cons x t ih =>
    rw [List.map_cons, List.mapM_cons, List.mapM_cons, ih]

/-- `mapM` only looks at the function's values on the list's members. -/
theorem mapM_congr_mem {α β : Type} (l : List α) (f g : α → Option β)
    (h : ∀ x ∈ l, f x = g x) : l.mapM f = l.mapM g := by
  induction l with
  | nil => rfl
  | cons x t ih =>
    simp only [List.mapM_cons, h x (List.mem_cons_self x t),
      ih fun y hy => h y (List.mem_cons_of_mem x hy)]

/-- Walking a list by positions 0..len-1 and looking each one up is the
same as traversing the list. -/
theorem range_mapM_getElem {α β : Type} (v : List α) (g : α → Option β) :
    (List.range v.length).mapM (lookupThen v g) = v.mapM g := by
  induction v with
  | nil => rfl
  | cons x t ih =>
    rw [List.length_cons, List.range_succ_eq_map, List.mapM_cons,
      mapM_map_comp]
    have hshift : ∀ k, lookupThen (x :: t) g (Nat.succ k) = lookupThen t g k := by
      intro k
      unfold lookupThen
      rw [List.getElem?_cons_succ]
    rw [mapM_congr_mem _ _ (lookupThen t g) fun k _ => hshift k]
    have h0 : lookupThen (x :: t) g 0 = g x := by
      unfold lookupThen
      rw [List.getElem?_cons_zero]
    rw [ih, h0, List.mapM_cons]

/-- A successful `StdLogic` construction from a character renders back as
the uppercased character. -/
theorem construct_std_str (c : Char) (vc : LogicVal)
    (h : construct .std c = some vc) : vc.str_ = some c.toUpper := by
  unfold construct literalRepr at h
  split_ifs at h with h1 h2 h3 h4 h5 h6 h7 h8 h9 <;>
    simp only [LogicSub.values] at h
  · rcases h1 with rfl | rfl <;>
      (rw [show vc = ⟨.std, 0⟩ from by simpa using h.symm]; rfl)
  · rcases h2 with rfl | rfl <;>
      (rw [show vc = ⟨.std, 1⟩ from by simpa using h.symm]; rfl)
  · subst h3
    rw [show vc = ⟨.std, 2⟩ from by simpa using h.symm]
    rfl
  · subst h4
    rw [show vc = ⟨.std, 3⟩ from by simpa using h.symm]
    rfl
  · rcases h5 with rfl | rfl <;>
      (rw [show vc = ⟨.std, 4⟩ from by simpa using h.symm]; rfl)
  · rcases h6 with rfl | rfl <;>
      (rw [show vc = ⟨.std, 6⟩ from by simpa using h.symm]; rfl)
  · rcases h7 with rfl | rfl <;>
      (rw [show vc = ⟨.std, 7⟩ from by simpa using h.symm]; rfl)
  · rcases h8 with rfl | rfl <;>
      (rw [show vc = ⟨.std, 5⟩ from by simpa using h.symm]; rfl)
  · subst h9
    rw [show vc = ⟨.std, 8⟩ from by simpa using h.symm]
    rfl

/-- Converting a literal list to `StdLogic` values and rendering each back
uppercases the list. -/
theorem stdLiteral_elements (l : List Char) (v : List LogicVal)
    (h : l.mapM (construct .std) = some v) :
    v.mapM LogicVal.str_ = some (l.map Char.toUpper) := by
  induction l generalizing v with
  | nil =>
    simp only [List.mapM_nil] at h
    cases h
    rfl
  | cons c t ih =>
    rw [List.mapM_cons] at h
    cases hvc : construct .std c with
    | none => rw [hvc] at h; cases h
    | some vc =>
      rw [hvc] at h
      cases hvt : t.mapM (construct .std) with
      | none => rw [hvt] at h; cases h
      | some vt =>
        rw [hvt] at h
        have hv : v = vc :: vt := by
          simpa using h.symm
        subst hv
        rw [List.mapM_cons, construct_std_str c vc hvc, ih vt hvt,
          List.map_cons]
        rfl

/-- Part of claim C8: the string of element symbols rendered by
`_ConstLogicArray.__repr__` for an array built by `StdLogicArray` from a
literal is the literal uppercased. -/
theorem std_logic_array_repr_string (s : String) (la : LogicArrayV)
    (h : StdLogicArray s = .ok la) :
    la.reprValueString = some (s.data.map Char.toUpper) := by
  unfold StdLogicArray at h
  cases hm : s.data.mapM (construct .std) with
  | none => rw [hm] at h; cases h
  | some v =>
    rw [hm] at h
    unfold LogicArrayV.make at h
    have hla : (⟨v, Range.makeDir 0 .to ((v.length : Int) - 1)⟩ :
        LogicArrayV) = la := Except.ok.inj h
    subst hla
    have hwR : (Range.makeDir 0 .to ((v.length : Int) - 1)).wfStep :=
      Or.inl rfl
    have hRlen : (Range.makeDir 0 .to ((v.length : Int) - 1)).length =
        v.length := by
      simp [Range.length, PyRange.length, Range.makeDir, Direction.step]
    unfold LogicArrayV.reprValueString LogicArrayV.iterIdx
    rw [hRlen, mapM_map_comp]
    rw [mapM_congr_mem _ _ (lookupThen v LogicVal.str_) ?_]
    · rw [range_mapM_getElem v LogicVal.str_]
      exact stdLiteral_elements s.data v hm
    · intro k hk
      have hklt : k < (Range.makeDir 0 .to ((v.length : Int) - 1)).length := by
        rw [hRlen]
        exact List.mem_range.mp hk
      show (match LogicArrayV.get ⟨v, Range.makeDir 0 .to ((v.length : Int) - 1)⟩
          ((Range.makeDir 0 .to ((v.length : Int) - 1)).nth k) with
        | Except.ok x => x.str_
        | Except.error _ => none) = lookupThen v LogicVal.str_ k
      unfold LogicArrayV.get LogicArrayV.index_ lookupThen
      rw [Range.indexOf_nth hwR hklt]
      show (match (match v[k]? with
          | none =>
            (Except.error "internal: storage shorter than range":
              Except String LogicVal)
          | some x => Except.ok x) with
        | Except.ok x => x.str_
        | Except.error _ => none) = _
      cases v[k]? with
      | none => rfl
      | some x => rfl

/-- Claim C8, amended: on the generic array layer the full slice `a[:]` of
any array of positive length is the array itself (so `a[:] == a`), but the
full slice of a zero-length array raises `IndexError` and logic array
slicing is broken by the missing `+ 1` (claims above); and the string
round-trip holds for the element symbols embedded in `repr` — the class
has no `__str__`, so `str()` yields the full `repr` wrapper, whose value
part is the literal uppercased. -/
theorem full_slice_and_literal_roundtrip :
    (∀ (α : Type) (a : ConstArray α),
      a.value.length = a.range.length → a.range.wfStep →
      0 < a.range.length → a.getSlice none none = .ok a) ∧
    (∀ (s : String) (la : LogicArrayV), StdLogicArray s = .ok la →
      la.reprValueString = some (s.data.map Char.toUpper)) :=
  ⟨fun _ a h1 h2 h3 => const_array_full_slice a h1 h2 h3,
   fun s la h => std_logic_array_repr_string s la h⟩

/-- Witness for the amended claim C8: a two-element array sliced in full,
and the literal `"z01X"` rendered back as `"Z01X"`. -/
theorem full_slice_and_literal_roundtrip_witness :
    ConstArray.getSlice ⟨['a', 'b'], Range.makeDir 0 .to 1⟩ none none =
      .ok ⟨['a', 'b'], Range.makeDir 0 .to 1⟩ ∧
    LogicArrayV.reprValueString
      ⟨[⟨.std, 4⟩, ⟨.std, 2⟩, ⟨.std, 3⟩, ⟨.std, 1⟩], Range.makeDir 0 .to 3⟩ =
      some ("z01X".data.map Char.toUpper) :=
  ⟨full_slice_and_literal_roundtrip.1 Char ⟨['a', 'b'], Range.makeDir 0 .to 1⟩
      (by decide) (by decide) (by decide),
   full_slice_and_literal_roundtrip.2 "z01X"
      ⟨[⟨.std, 4⟩, ⟨.std, 2⟩, ⟨.std, 3⟩, ⟨.std, 1⟩], Range.makeDir 0 .to 3⟩
      (by rfl)⟩

end Hdl
